import Mathlib

/-!
Verification of the multi-page bank-statement extraction pipeline
(`src/backend/src/index.js`) against its natural-language specification.

The development shallowly embeds the pipeline's pure core:

* a JSON value type `JVal` and an executable JSON parser `jsonParse`
  standing for `JSON.parse` (restricted to the ASCII fragment exercised
  by the pipeline);
* the resilient JSON extractor `parseLLMJSON` (brace slicing followed by
  the four textual repair passes of the source);
* the transaction-window function `extractTransactionBlock`;
* the regex-based account-number fallback `extractAccountNumberFromText`,
  hand-compiled from the four source regular expressions;
* the per-page orchestration step `processPage` and the run fold
  `runFrom`, with the external OCR and language-model services modelled
  as per-page oracle inputs (`PageInput`).

Machine strings are modelled as `List Char` wherever proofs manipulate
them; JavaScript's `\s` class is modelled on its ASCII subset, and
`toLowerCase` as ASCII `Char.toLower`, matching the ASCII scope of the
claims under verification.
-/

/- ===== JSON values ===== -/

/-- JSON values as produced by `JSON.parse`.  Numbers keep their source
lexeme: the pipeline never performs arithmetic on parsed numbers. -/
inductive JVal where
  | jnull : JVal
  | jbool (b : Bool) : JVal
  | jnum (lexeme : String) : JVal
  | jstr (s : String) : JVal
  | jarr (xs : List JVal) : JVal
  | jobj (fields : List (String × JVal)) : JVal

/- ===== Character and list helpers ===== -/

/-- JSON's insignificant whitespace characters (RFC 8259). -/
def isJsonWs (c : Char) : Bool :=
  c == ' ' || c == '\t' || c == '\n' || c == '\r'

/-- ASCII subset of JavaScript's regex class `\s`. -/
def isJsWs (c : Char) : Bool :=
  c == ' ' || c == '\t' || c == '\n' || c == '\r' || c == '\x0b' || c == '\x0c'

/-- ASCII decimal digit, JavaScript's `\d`. -/
def isDigitC (c : Char) : Bool := '0' ≤ c && c ≤ '9'

/-- ASCII word character, JavaScript's `\w` (used for `\b` boundaries). -/
def isWordC (c : Char) : Bool :=
  ('a' ≤ c && c ≤ 'z') || ('A' ≤ c && c ≤ 'Z') || isDigitC c || c == '_'

/-- Lower-casing a character list (ASCII model of `String.toLowerCase`). -/
def lcL (l : List Char) : List Char := l.map Char.toLower

/-- `startsWithL n h` holds when `n` is an initial segment of `h`. -/
def startsWithL : List Char → List Char → Bool
  | [], _ => true
  | _ :: _, [] => false
  | x :: xs, y :: ys => x == y && startsWithL xs ys

/-- Index of the first occurrence of `n` inside `h`
(JavaScript `String.prototype.indexOf`). -/
def firstIdxOfSub (n : List Char) : List Char → Option Nat
  | [] => if startsWithL n [] then some 0 else none
  | c :: hs =>
    if startsWithL n (c :: hs) then some 0
    else (firstIdxOfSub n hs).map (· + 1)

/-- Index of the first occurrence of a single character. -/
def firstIdxOfChar (c : Char) (l : List Char) : Option Nat := firstIdxOfSub [c] l

/-- Index of the last occurrence of a single character
(JavaScript `String.prototype.lastIndexOf`). -/
def lastIdxOfChar (c : Char) (l : List Char) : Option Nat :=
  (firstIdxOfChar c l.reverse).map (fun i => l.length - 1 - i)

/-- Remove JavaScript-`trim` whitespace from both ends (ASCII model). -/
def trimL (l : List Char) : List Char :=
  ((l.dropWhile isJsWs).reverse.dropWhile isJsWs).reverse

/-- `String.prototype.trim` on the ASCII whitespace subset. -/
def jsTrim (s : String) : String := String.mk (trimL s.data)

/- ===== JSON parser (model of JSON.parse) ===== -/

/-- Consume leading JSON whitespace. -/
def skipJWs : List Char → List Char
  | [] => []
  | c :: cs => if isJsonWs c then skipJWs cs else c :: cs

/-- Value of one hexadecimal digit, by code point: `0`-`9`, then the
lowercase and uppercase letter ranges. -/
def hexVal (c : Char) : Option Nat :=
  let n := c.toNat
  if 48 ≤ n && n ≤ 57 then some (n - 48)
  else if 97 ≤ n && n ≤ 102 then some (n - 87)
  else if 65 ≤ n && n ≤ 70 then some (n - 55)
  else none

/-- Single-character JSON escapes. -/
def escMap (c : Char) : Option Char :=
  if c = '"' then some '"'
  else if c = '\\' then some '\\'
  else if c = '/' then some '/'
  else if c = 'b' then some '\x08'
  else if c = 'f' then some '\x0c'
  else if c = 'n' then some '\n'
  else if c = 'r' then some '\r'
  else if c = 't' then some '\t'
  else none

/-- Parse the body of a JSON string literal (opening quote already
consumed); returns the decoded characters and the rest of the input. -/
def pStr : Nat → List Char → Except String (List Char × List Char)
  | 0, _ => .error "Unterminated string in JSON"
  | _ + 1, [] => .error "Unterminated string in JSON"
  | f + 1, c :: cs =>
    if c = '"' then .ok ([], cs)
    else if c = '\\' then
      match cs with
      | [] => .error "Unterminated string in JSON"
      | e :: cs2 =>
        if e = 'u' then
          match cs2 with
          | h1 :: h2 :: h3 :: h4 :: cs3 =>
            match hexVal h1, hexVal h2, hexVal h3, hexVal h4 with
            | some v1, some v2, some v3, some v4 =>
              match pStr f cs3 with
              | .ok (out, rest) =>
                .ok (Char.ofNat (((v1 * 16 + v2) * 16 + v3) * 16 + v4) :: out, rest)
              | .error er => .error er
            | _, _, _, _ => .error "Bad Unicode escape in JSON"
          | _ => .error "Bad Unicode escape in JSON"
        else
          match escMap e with
          | some ch =>
            match pStr f cs2 with
            | .ok (out, rest) => .ok (ch :: out, rest)
            | .error er => .error er
          | none => .error "Bad escaped character in JSON"
    else if c.toNat < 32 then .error "Bad control character in JSON string"
    else
      match pStr f cs with
      | .ok (out, rest) => .ok (c :: out, rest)
      | .error er => .error er

/-- Digit run for number parsing. -/
def digitRun (cs : List Char) : List Char × List Char :=
  (cs.takeWhile isDigitC, cs.dropWhile isDigitC)

/-- Parse the integer part of a JSON number (after any sign):
`0` or a nonzero digit followed by digits. -/
def pIntPart (cs : List Char) : Except String (List Char × List Char) :=
  match cs with
  | [] => .error "Unexpected end of JSON input"
  | c :: rest =>
    if c = '0' then .ok (['0'], rest)
    else if isDigitC c then
      let (ds, rest2) := digitRun rest
      .ok (c :: ds, rest2)
    else .error "Unexpected token in JSON"

/-- Parse a JSON number lexeme starting at the head of the input. -/
def pNumLex (cs : List Char) : Except String (List Char × List Char) :=
  let (sign, cs1) :=
    match cs with
    | '-' :: rest => (['-'], rest)
    | _ => (([] : List Char), cs)
  match pIntPart cs1 with
  | .error er => .error er
  | .ok (ip, cs2) =>
    let (fp, cs3) :=
      match cs2 with
      | '.' :: rest =>
        let (ds, rest2) := digitRun rest
        if ds = [] then (none, cs2) else (some ('.' :: ds), rest2)
      | _ => (none, cs2)
    match fp with
    | none =>
      match cs2 with
      | '.' :: _ => .error "Unterminated fractional number in JSON"
      | _ =>
        match pExpPart cs2 with
        | .error er => .error er
        | .ok (ep, cs4) => .ok (sign ++ ip ++ ep, cs4)
    | some fpart =>
      match pExpPart cs3 with
      | .error er => .error er
      | .ok (ep, cs4) => .ok (sign ++ ip ++ fpart ++ ep, cs4)
where
  /-- Parse an optional exponent part. -/
  pExpPart (cs : List Char) : Except String (List Char × List Char) :=
    match cs with
    | c :: rest =>
      if c = 'e' || c = 'E' then
        let (sgn, rest2) :=
          match rest with
          | s :: r2 => if s = '+' || s = '-' then ([s], r2) else (([] : List Char), rest)
          | [] => (([] : List Char), rest)
        let (ds, rest3) := digitRun rest2
        if ds = [] then .error "Exponent part is missing a number in JSON"
        else .ok (c :: (sgn ++ ds), rest3)
      else .ok ([], cs)
    | [] => .ok ([], cs)

mutual

/-- Parse one JSON value (leading whitespace allowed). -/
def pVal : Nat → List Char → Except String (JVal × List Char)
  | 0, _ => .error "JSON input too complex"
  | f + 1, cs0 =>
    match skipJWs cs0 with
    | [] => .error "Unexpected end of JSON input"
    | c :: rest =>
      if c = 'n' then
        match rest with
        | 'u' :: 'l' :: 'l' :: r2 => .ok (.jnull, r2)
        | _ => .error "Unexpected token in JSON"
      else if c = 't' then
        match rest with
        | 'r' :: 'u' :: 'e' :: r2 => .ok (.jbool true, r2)
        | _ => .error "Unexpected token in JSON"
      else if c = 'f' then
        match rest with
        | 'a' :: 'l' :: 's' :: 'e' :: r2 => .ok (.jbool false, r2)
        | _ => .error "Unexpected token in JSON"
      else if c = '"' then
        match pStr (f + 1) rest with
        | .ok (content, r2) => .ok (.jstr (String.mk content), r2)
        | .error er => .error er
      else if c = '[' then
        match skipJWs rest with
        | ']' :: r2 => .ok (.jarr [], r2)
        | cs2 => pElems f cs2 []
      else if c = '\x7b' then
        match skipJWs rest with
        | '\x7d' :: r2 => .ok (.jobj [], r2)
        | cs2 => pFields f cs2 []
      else if c = '-' || isDigitC c then
        match pNumLex (c :: rest) with
        | .ok (lex, r2) => .ok (.jnum (String.mk lex), r2)
        | .error er => .error er
      else .error "Unexpected token in JSON"

/-- Parse the elements of a non-empty JSON array (after `[`). -/
def pElems : Nat → List Char → List JVal → Except String (JVal × List Char)
  | 0, _, _ => .error "JSON input too complex"
  | f + 1, cs, acc =>
    match pVal f cs with
    | .error er => .error er
    | .ok (v, rest) =>
      match skipJWs rest with
      | ',' :: r2 => pElems f r2 (acc ++ [v])
      | ']' :: r2 => .ok (.jarr (acc ++ [v]), r2)
      | _ => .error "Expected comma or closing bracket in JSON array"

/-- Parse the fields of a non-empty JSON object (after the opening
brace). -/
def pFields : Nat → List Char → List (String × JVal) → Except String (JVal × List Char)
  | 0, _, _ => .error "JSON input too complex"
  | f + 1, cs, acc =>
    match skipJWs cs with
    | '"' :: rest =>
      match pStr (f + 1) rest with
      | .error er => .error er
      | .ok (key, r1) =>
        match skipJWs r1 with
        | ':' :: r2 =>
          match pVal f r2 with
          | .error er => .error er
          | .ok (v, r3) =>
            let acc2 := acc ++ [(String.mk key, v)]
            match skipJWs r3 with
            | ',' :: r4 => pFields f r4 acc2
            | '\x7d' :: r4 => .ok (.jobj acc2, r4)
            | _ => .error "Expected comma or closing brace in JSON object"
        | _ => .error "Expected colon in JSON object"
    | _ => .error "Expected property name in JSON object"

end

/-- Model of `JSON.parse`: parse one value, allow trailing whitespace,
reject anything further. -/
def jsonParse (s : String) : Except String JVal :=
  match pVal (2 * s.length + 8) s.data with
  | .error er => .error er
  | .ok (v, rest) =>
    match skipJWs rest with
    | [] => .ok v
    | _ => .error "Unexpected non-whitespace character after JSON"

/- ===== The four repair passes of parseLLMJSON ===== -/

/-- Try to consume `\s*` followed by the closing character `close`;
returns the remaining input on success. -/
def tryWsClose (close : Char) : List Char → Option (List Char)
  | [] => none
  | c :: cs => if c = close then some cs else if isJsWs c then tryWsClose close cs else none

/-- One global-replace pass of `,\s*X ↦ X` for a closing character `X`,
with JavaScript `String.prototype.replace` semantics (left-to-right,
replaced text not rescanned).  The fuel argument dominates the input
length; every step consumes at least one character. -/
def replCommaCloseF (close : Char) : Nat → List Char → List Char
  | 0, l => l
  | _ + 1, [] => []
  | f + 1, c :: cs =>
    if c = ',' then
      match tryWsClose close cs with
      | some rest => close :: replCommaCloseF close f rest
      | none => ',' :: replCommaCloseF close f cs
    else c :: replCommaCloseF close f cs

/-- The global replace `,\s*X ↦ X`, run with sufficient fuel. -/
def replCommaClose (close : Char) (l : List Char) : List Char :=
  replCommaCloseF close l.length l

/-- One global-replace pass collapsing maximal runs of characters
satisfying `p` into the single character `out`; the `inRun` flag records
whether the previous character belonged to a run. -/
def collapseRuns (p : Char → Bool) (out : Char) : Bool → List Char → List Char
  | _, [] => []
  | inRun, c :: cs =>
    if p c then
      if inRun then collapseRuns p out true cs
      else out :: collapseRuns p out true cs
    else c :: collapseRuns p out false cs

/-- Carriage-return / line-feed characters (`[\r\n]`). -/
def isNlChar (c : Char) : Bool := c == '\r' || c == '\n'

/-- The four repair passes applied by `parseLLMJSON`, in source order:
trailing commas before a brace, trailing commas before a bracket,
newline runs to one space, whitespace runs to one space. -/
def repairAll (l : List Char) : List Char :=
  collapseRuns isJsWs ' ' false
    (collapseRuns isNlChar ' ' false
      (replCommaClose ']' (replCommaClose '\x7d' l)))

/- ===== parseLLMJSON ===== -/

/-- Failure outcomes of `parseLLMJSON`.  `repairParseFailed` carries the
caller label, the underlying parse error, and the diagnostic excerpt
`jsonStr.substring(0, 200)` written to the error log. -/
inductive PLJFailure where
  | emptyResponse (label : String) : PLJFailure
  | noJSON (label : String) : PLJFailure
  | repairParseFailed (label : String) (parseErr : String) (excerpt : String) : PLJFailure
deriving DecidableEq

/-- The message of the `Error` thrown by `parseLLMJSON` in each failure
case. -/
def renderPLJ : PLJFailure → String
  | .emptyResponse l => l ++ ": empty response"
  | .noJSON l => l ++ ": invalid JSON"
  | .repairParseFailed l er _ => l ++ ": invalid JSON - " ++ er

/-- The resilient JSON extractor `parseLLMJSON` with structured failure
information: slice from the first brace to the last closing brace, apply
the four repair passes, then parse. -/
def parseLLMJSONFull (raw : String) (label : String) : Except PLJFailure JVal :=
  if raw = "" then .error (.emptyResponse label)
  else
    match firstIdxOfChar '\x7b' raw.data, lastIdxOfChar '\x7d' raw.data with
    | some stIdx, some enIdx =>
      let jsonStr := repairAll ((raw.data.drop stIdx).take (enIdx + 1 - stIdx))
      match jsonParse (String.mk jsonStr) with
      | .ok v => .ok v
      | .error er => .error (.repairParseFailed label er (String.mk (jsonStr.take 200)))
    | _, _ => .error (.noJSON label)

/-- `parseLLMJSON` as used by the pipeline: failures rendered to the
thrown error message. -/
def parseLLMJSON (raw : String) (label : String) : Except String JVal :=
  (parseLLMJSONFull raw label).mapError renderPLJ

/- ===== Transaction text windowing ===== -/

/-- The fixed ordered list of section-header phrases of
`extractTransactionBlock`. -/
def txnHeaderPhrases : List String :=
  ["Statement of Transactions", "Transaction Details", "Transaction History",
   "Account Activity", "Transactions", "Date Description", "Date Particulars",
   "Value Date"]

/-- First phrase of the list (in list order) that occurs in the
lower-cased page text, together with the index of its first
occurrence. -/
def findFirstPhrase : List String → List Char → Option Nat
  | [], _ => none
  | p :: ps, lt =>
    match firstIdxOfSub (lcL p.data) lt with
    | some i => some i
    | none => findFirstPhrase ps lt

/-- `extractTransactionBlock`: slice the page text from the first
occurrence of the first matching header phrase; fall back to the whole
text when no phrase matches. -/
def extractTransactionBlock (t : String) : String :=
  match findFirstPhrase txnHeaderPhrases (lcL t.data) with
  | some i => String.mk (t.data.drop i)
  | none => t

/- ===== Account-number regular expressions ===== -/

/-- Consume an exact literal at the head of the input. -/
def stripLit : List Char → List Char → Option (List Char)
  | [], cs => some cs
  | _ :: _, [] => none
  | a :: as, b :: bs => if a == b then stripLit as bs else none

/-- Consume `\s*` (greedy). -/
def stripWs (cs : List Char) : List Char := cs.dropWhile isJsWs

/-- Greedy capture `(\d{mn,mx})` at the head of the input: the digit run
must have at least `mn` digits and at most `mx` are captured. -/
def digitGroup (mn mx : Nat) (cs : List Char) : Option (List Char) :=
  let run := cs.takeWhile isDigitC
  if mn ≤ run.length then some (run.take mx) else none

/-- The common tail `\s*[:\-]?\s*(\d{8,18})` of the first three account
regexes; with `req` the separator `[:\-]` is mandatory (third regex). -/
def tailSep (req : Bool) (cs : List Char) : Option (List Char) :=
  let cs1 := stripWs cs
  match cs1 with
  | c :: r =>
    if c = ':' || c = '-' then digitGroup 8 18 (stripWs r)
    else if req then none
    else digitGroup 8 18 cs1
  | [] => none

/-- `(?:no|number|#)` followed by the optional-separator digits tail,
with the regex engine's left-to-right alternative order. -/
def altNoNumberHash (cs : List Char) : Option (List Char) :=
  (stripLit "no".data cs >>= tailSep false) <|>
  (stripLit "number".data cs >>= tailSep false) <|>
  (stripLit "#".data cs >>= tailSep false)

/-- Regex 1 at one position:
`(?:account\s*(?:no|number|#)|a\/c\s*(?:no|number|#))\s*[:\-]?\s*(\d{8,18})`
(case-insensitive, applied to lower-cased input). -/
def p1At (cs : List Char) : Option (List Char) :=
  ((stripLit "account".data cs).map stripWs >>= altNoNumberHash) <|>
  ((stripLit "a/c".data cs).map stripWs >>= altNoNumberHash)

/-- Regex 2 at one position:
`(?:savings|current|checking)\s*a\/c\s*[:\-]?\s*(\d{8,18})`. -/
def p2At (cs : List Char) : Option (List Char) :=
  ((stripLit "savings".data cs <|> stripLit "current".data cs <|>
    stripLit "checking".data cs).map stripWs) >>=
  fun r => (stripLit "a/c".data r).map stripWs >>= tailSep false

/-- Regex 3 at one position: `account\s*[:\-]\s*(\d{8,18})`. -/
def p3At (cs : List Char) : Option (List Char) :=
  (stripLit "account".data cs).map stripWs >>= tailSep true

/-- Regex 4 at one position: `\b(\d{10,18})\b`.  `prevWord` tells
whether the preceding character is a word character (for the left
boundary); the right boundary forces the digit run itself to be 10-18
digits long, since a longer run leaves a digit after any 10-18 digit
capture. -/
def p4At (prevWord : Bool) (cs : List Char) : Option (List Char) :=
  if prevWord then none
  else
    let run := cs.takeWhile isDigitC
    if 10 ≤ run.length && run.length ≤ 18 then
      match cs.drop run.length with
      | [] => some run
      | c :: _ => if isWordC c then none else some run
    else none

/-- Leftmost-match scan of a positional matcher, as the regex engine
advances through the subject string. -/
def scanAt (m : List Char → Option (List Char)) : List Char → Option (List Char)
  | [] => m []
  | c :: rest => m (c :: rest) <|> scanAt m rest

/-- Leftmost-match scan for regex 4, carrying the word-character status
of the preceding character. -/
def scanP4 (prevWord : Bool) : List Char → Option (List Char)
  | [] => none
  | c :: rest => p4At prevWord (c :: rest) <|> scanP4 (isWordC c) rest

/-- `extractAccountNumberFromText`: the four regexes tried in order,
each scanned over the whole (lower-cased) page text; the captured digit
group of the first one that matches anywhere is returned. -/
def extractAccountNumberFromText (t : String) : Option String :=
  let lc := lcL t.data
  ((scanAt p1At lc <|> scanAt p2At lc <|> scanAt p3At lc) <|>
    scanP4 false lc).map String.mk

/- ===== JavaScript value coercions used by the handler ===== -/

/-- Whether a JSON number lexeme denotes a nonzero value (a nonzero
digit occurs in its mantissa).  Floating-point underflow of tiny
exponents is outside the model. -/
def jnumNonzero (s : String) : Bool :=
  (s.data.takeWhile (fun c => c ≠ 'e' && c ≠ 'E')).any (fun c => '1' ≤ c && c ≤ '9')

/-- JavaScript truthiness of a JSON value. -/
def jTruthy : JVal → Bool
  | .jnull => false
  | .jbool b => b
  | .jnum s => jnumNonzero s
  | .jstr s => s != ""
  | .jarr _ => true
  | .jobj _ => true

/-- JavaScript string coercion of a JSON value, as used for object keys
and template literals.  Numbers render as their lexeme and array
elements are joined with commas (nested scalars only), a faithful model
on the string-valued fields this pipeline produces. -/
def jKey : JVal → String
  | .jnull => "null"
  | .jbool b => cond b "true" "false"
  | .jnum s => s
  | .jstr s => s
  | .jobj _ => "[object Object]"
  | .jarr xs => String.intercalate "," (xs.map jKeyScalar)
where
  /-- Scalar rendering for array elements (null renders empty). -/
  jKeyScalar : JVal → String
    | .jnull => ""
    | .jbool b => cond b "true" "false"
    | .jnum s => s
    | .jstr s => s
    | .jobj _ => "[object Object]"
    | .jarr _ => ""

/-- Property access on a parsed JSON value (`undefined` is `none`);
duplicate keys follow `JSON.parse`, the last assignment wins. -/
def getField (v : JVal) (k : String) : Option JVal :=
  match v with
  | .jobj fs => (fs.reverse.find? (fun p => p.1 == k)).map (fun p => p.2)
  | _ => none

/-- Property access defaulted to `null` (same truthiness as
`undefined`). -/
def getFieldD (v : JVal) (k : String) : JVal := (getField v k).getD .jnull

/- ===== Pipeline data model ===== -/

/-- An aggregate account record as built by the handler. -/
structure Account where
  accountNumber : JVal
  bankName : JVal
  accountHolderName : JVal
  accountType : JVal
  currency : JVal
  statementStartDate : JVal
  statementEndDate : JVal
  transactions : List JVal

/-- `x || y` for the metadata fields: the field if truthy, else `""`. -/
def orEmpty (v : JVal) : JVal := if jTruthy v then v else .jstr ""

/-- The account created on first sight of an identifier, seeded from the
current page's metadata. -/
def mkAccount (acct : JVal) (meta : JVal) : Account where
  accountNumber := acct
  bankName := orEmpty (getFieldD meta "bankName")
  accountHolderName := orEmpty (getFieldD meta "accountHolderName")
  accountType := orEmpty (getFieldD meta "accountType")
  currency := orEmpty (getFieldD meta "currency")
  statementStartDate := orEmpty (getFieldD meta "statementStartDate")
  statementEndDate := orEmpty (getFieldD meta "statementEndDate")
  transactions := []

/-- The synthetic identifier
``UNKNOWN-${meta.bankName || "BANK"}-${Date.now()}``. -/
def synthId (bank : JVal) (now : Nat) : String :=
  "UNKNOWN-" ++ (if jTruthy bank then jKey bank else "BANK") ++ "-" ++ Nat.repr now

/-- Identifier resolution for one page:
`meta.accountNumber || extractAccountNumberFromText(pageText) ||
activeAccountNumber`, then the synthetic fallback when all are falsy. -/
def resolveId (meta : JVal) (pageText : String) (active : JVal) (now : Nat) : JVal :=
  let a := getFieldD meta "accountNumber"
  let v :=
    if jTruthy a then a
    else
      match extractAccountNumberFromText pageText with
      | some n => .jstr n
      | none => active
  if jTruthy v then v else .jstr (synthId (getFieldD meta "bankName") now)

/-- The accounts map: the own properties of the plain object
`accounts = {}`, keyed by the coerced identifier, in insertion order
(what `Object.values` enumerates). -/
abbrev AccountsMap : Type := List (String × Account)

/-- Own-property lookup on the accounts object.  JavaScript bracket
access `accounts[key]` returns this own entry when present and otherwise
falls through to `Object.prototype`; that inherited layer is modelled at
the two bracket-access sites (`stepAccounts` and the push in
`processPage`) via `isProtoKey`. -/
def lookupAcc : AccountsMap → String → Option Account
  | [], _ => none
  | p :: ps, k => if p.1 = k then some p.2 else lookupAcc ps k

/-- The own property names of `Object.prototype`: for these keys, when
no own entry shadows them, `accounts[key]` yields the inherited value —
a function, or `Object.prototype` itself for `__proto__` — which is
truthy and has no `transactions` field. -/
def protoKeys : List String :=
  ["constructor", "hasOwnProperty", "isPrototypeOf", "propertyIsEnumerable",
   "toLocaleString", "toString", "valueOf", "__proto__", "__defineGetter__",
   "__defineSetter__", "__lookupGetter__", "__lookupSetter__"]

/-- Is `k` inherited from `Object.prototype` on a plain object? -/
def isProtoKey (k : String) : Bool := protoKeys.contains k

/-- Message of the `TypeError` thrown by
`accounts[key].transactions.push` when `accounts[key]` is an inherited
prototype property (so `.transactions` is `undefined`). -/
def typeErrMsg : String := "Cannot read properties of undefined (reading 'push')"

/-- `accounts[key].transactions.push(...rows)` on an own entry. -/
def appendTxns (l : AccountsMap) (k : String) (rows : List JVal) : AccountsMap :=
  l.map (fun p =>
    if p.1 = k then (p.1, { p.2 with transactions := p.2.transactions ++ rows }) else p)

/-- The creation guard `if (!accounts[accountNumber])`: an existing own
entry is truthy and is kept; with no own entry, a key inherited from
`Object.prototype` is also truthy, so creation is (silently) skipped;
only otherwise is a fresh account stored. -/
def stepAccounts (l : AccountsMap) (k : String) (acct meta : JVal) : AccountsMap :=
  match lookupAcc l k with
  | some _ => l
  | none => if isProtoKey k then l else l ++ [(k, mkAccount acct meta)]

/-- The rows appended for a page: the `transactions` field when it is an
array (`Array.isArray` guard), nothing otherwise. -/
def rowsOf (txns : JVal) : List JVal :=
  match getField txns "transactions" with
  | some (.jarr xs) => xs
  | _ => []

/- ===== External collaborators (oracle inputs) ===== -/

/-- Outcome of the OCR call for one page: transport failure (the axios
error propagates as-is), an `IsErroredOnProcessing` report, or the
joined parsed text (before trimming). -/
inductive OCROutcome where
  | transport (msg : String) : OCROutcome
  | failed (msg : String) : OCROutcome
  | ok (text : String) : OCROutcome

/-- Failure of one language-model call as seen by `callLLM`'s catch
branch. -/
inductive LLMFail where
  | connRefused : LLMFail
  | fail (msg : String) : LLMFail

/-- The fixed guidance message of the connection-refused branch. -/
def connRefusedMsg : String := "LLM server not running. Start Ollama with: ollama serve"

/-- `callLLM`: map a service outcome to the returned reply text or the
thrown error message. -/
def callLLM (reply : Except LLMFail String) (label : String) : Except String String :=
  match reply with
  | .ok t => .ok t
  | .error .connRefused => .error connRefusedMsg
  | .error (.fail m) => .error (label ++ " LLM call failed: " ++ m)

/-- Oracle inputs for one page: the OCR outcome, the two language-model
replies, and the `Date.now()` reading used by the synthetic-identifier
fallback. -/
structure PageInput where
  ocr : OCROutcome
  metaReply : Except LLMFail String
  txnReply : Except LLMFail String
  now : Nat

/-- Orchestrator state carried across pages: the accounts map and
`activeAccountNumber` (initially `null`). -/
structure PState where
  accounts : AccountsMap
  active : JVal

/-- Label of the metadata extraction stage for page `i` (0-based). -/
def metaLabel (i : Nat) : String := "Metadata page " ++ Nat.repr (i + 1)

/-- Label of the transaction extraction stage for page `i` (0-based). -/
def txnLabel (i : Nat) : String := "Transactions page " ++ Nat.repr (i + 1)

/-- Message prefix of an OCR processing failure on page `i`. -/
def ocrFailPre (i : Nat) : String := "OCR failed on page " ++ Nat.repr (i + 1) ++ ": "

/- ===== The per-page pipeline step ===== -/

/-- One iteration of the handler's page loop: OCR, empty-page skip,
metadata extraction, identifier resolution, account creation,
transaction windowing and extraction, row append.  Any stage failure
aborts with the thrown error message.  The row append is bracket access
on the accounts object: when the resolved key has no own entry (a
prototype-named key skipped by the creation guard), `.transactions` of
the inherited value is `undefined` and the push throws `typeErrMsg`. -/
def processPage (i : Nat) (st : PState) (pg : PageInput) : Except String PState :=
  match pg.ocr with
  | .transport m => .error m
  | .failed m => .error (ocrFailPre i ++ m)
  | .ok t0 =>
    let t := jsTrim t0
    if t = "" then .ok st
    else
      match callLLM pg.metaReply (metaLabel i) with
      | .error e => .error e
      | .ok mraw =>
        match parseLLMJSON mraw (metaLabel i) with
        | .error e => .error e
        | .ok meta =>
          let acct := resolveId meta t st.active pg.now
          let key := jKey acct
          let accounts1 := stepAccounts st.accounts key acct meta
          let txnText := extractTransactionBlock t
          if txnText = "" then .ok ⟨accounts1, acct⟩
          else
            match callLLM pg.txnReply (txnLabel i) with
            | .error e => .error e
            | .ok traw =>
              match parseLLMJSON traw (txnLabel i) with
              | .error e => .error e
              | .ok txns =>
                match getField txns "transactions" with
                | some (.jarr xs) =>
                  match lookupAcc accounts1 key with
                  | some _ => .ok ⟨appendTxns accounts1 key xs, acct⟩
                  | none => .error typeErrMsg
                | _ => .ok ⟨accounts1, acct⟩

/-- The page loop from page `i` onward; the first failure aborts the
run. -/
def runFrom : Nat → PState → List PageInput → Except String AccountsMap
  | _, st, [] => .ok st.accounts
  | i, st, pg :: rest =>
    match processPage i st pg with
    | .error e => .error e
    | .ok st' => runFrom (i + 1) st' rest

/-- A whole run of the `parse-bank-statement` handler over the oracle
inputs of its pages. -/
def runPages (pgs : List PageInput) : Except String AccountsMap :=
  runFrom 0 ⟨[], .jnull⟩ pgs

/- ===== Helper lemmas: occurrences and indexOf ===== -/

theorem startsWithL_append (a b : List Char) : startsWithL a (a ++ b) = true := by
  induction a with
  | nil => simp [startsWithL]
  | cons x xs ih => simp [startsWithL, ih]

theorem startsWithL_ne_nil {n : List Char} (hn : n ≠ []) {h : List Char}
    (hs : startsWithL n h = true) : h ≠ [] := by
  cases n with
  | nil => exact absurd rfl hn
  | cons a as =>
    cases h with
    | nil => simp [startsWithL] at hs
    | cons b bs => simp

theorem firstIdxOfSub_eq_some {n h : List Char} {i : Nat}
    (he : firstIdxOfSub n h = some i) :
    startsWithL n (h.drop i) = true ∧ ∀ j < i, startsWithL n (h.drop j) = false := by
  induction h generalizing i with
  | nil =>
    simp only [firstIdxOfSub] at he
    by_cases hs : startsWithL n [] = true
    · simp [hs] at he
      subst he
      exact ⟨by simpa using hs, by omega⟩
    · simp [hs] at he
  | cons c hs ih =>
    simp only [firstIdxOfSub] at he
    by_cases h0 : startsWithL n (c :: hs) = true
    · simp [h0] at he
      subst he
      exact ⟨by simpa using h0, by omega⟩
    · simp only [h0, if_neg, Bool.false_eq_true, if_false, Option.map_eq_some'] at he
      obtain ⟨i', hi', rfl⟩ := he
      obtain ⟨h1, h2⟩ := ih hi'
      constructor
      · simpa using h1
      · intro j hj
        cases j with
        | zero => simpa using h0
        | succ j' =>
          simp only [List.drop_succ_cons]
          exact h2 j' (by omega)

theorem firstIdxOfSub_eq_none {n h : List Char}
    (he : firstIdxOfSub n h = none) : ∀ j, startsWithL n (h.drop j) = false := by
  induction h with
  | nil =>
    intro j
    simp only [firstIdxOfSub] at he
    by_cases hs : startsWithL n [] = true
    · simp [hs] at he
    · simpa [List.drop_nil] using hs
  | cons c hs ih =>
    intro j
    simp only [firstIdxOfSub] at he
    by_cases h0 : startsWithL n (c :: hs) = true
    · simp [h0] at he
    · simp only [h0, Bool.false_eq_true, if_false, Option.map_eq_none'] at he
      cases j with
      | zero => simpa using h0
      | succ j' =>
        simp only [List.drop_succ_cons]
        exact ih he j'

theorem firstIdxOfSub_complete {n h : List Char} {i : Nat}
    (ho : startsWithL n (h.drop i) = true)
    (hmin : ∀ j < i, startsWithL n (h.drop j) = false) :
    firstIdxOfSub n h = some i := by
  match he : firstIdxOfSub n h with
  | none =>
    have := firstIdxOfSub_eq_none he i
    rw [this] at ho
    exact absurd ho (by simp)
  | some i' =>
    obtain ⟨h1, h2⟩ := firstIdxOfSub_eq_some he
    rcases Nat.lt_trichotomy i' i with hlt | heq | hgt
    · have := hmin i' hlt
      rw [this] at h1
      exact absurd h1 (by simp)
    · rw [heq]
    · have := h2 i hgt
      rw [this] at ho
      exact absurd ho (by simp)

theorem firstIdxOfChar_append {p : List Char} {c : Char} (hp : ∀ x ∈ p, x ≠ c)
    (j : List Char) : firstIdxOfChar c (p ++ c :: j) = some p.length := by
  apply firstIdxOfSub_complete
  · rw [List.drop_left]
    simp [startsWithL]
  · intro k hk
    rw [List.drop_append_of_le_length (by omega)]
    cases hd : p.drop k with
    | nil =>
      have : p.length ≤ k := by
        have := congrArg List.length hd
        simp at this
        omega
      omega
    | cons x xs =>
      have hx : x ∈ p := by
        have : x ∈ p.drop k := by rw [hd]; simp
        exact List.mem_of_mem_drop this
      simp [startsWithL]
      intro hxc
      exact absurd hxc.symm (hp x hx)

theorem startsWithL_take (l : List Char) (n : Nat) : startsWithL (l.take n) l = true := by
  induction l generalizing n with
  | nil => cases n <;> simp [startsWithL]
  | cons c cs ih =>
    cases n with
    | zero => simp [startsWithL]
    | succ n' => simp [startsWithL, ih]

theorem startsWithL_single_iff {c : Char} {l : List Char} :
    startsWithL [c] l = true ↔ ∃ tl, l = c :: tl := by
  cases l with
  | nil => simp [startsWithL]
  | cons b bs =>
    simp [startsWithL]
    constructor
    · intro h; exact h.symm
    · intro h; exact h.symm

/-- `String.mk` is a section of `String.data`. -/
theorem mk_data (s : String) : String.mk s.data = s := rfl

theorem string_append_empty (s : String) : ("" ++ s ++ "") = s := by
  apply String.ext
  simp [String.data_append]

theorem string_ne_empty_of_data {s : String} {c : Char} {tl : List Char}
    (h : s.data = c :: tl) : s ≠ "" := by
  intro he
  rw [he] at h
  simp at h

/- ===== The extractor-recovery helper ===== -/

/-- Core recovery property of `parseLLMJSON`: an embedded JSON object
text that begins with the opening brace, ends with the closing brace
and is a fixed point of the repair passes is recovered exactly,
whatever brace-free prose surrounds it. -/
theorem parseLLM_recovers (pre json sfx lbl : String) (v : JVal)
    (hpre : ∀ x ∈ pre.data, x ≠ '\x7b' ∧ x ≠ '\x7d')
    (hsfx : ∀ x ∈ sfx.data, x ≠ '\x7b' ∧ x ≠ '\x7d')
    (hhead : startsWithL ['\x7b'] json.data = true)
    (hlast : startsWithL ['\x7d'] json.data.reverse = true)
    (hfix : repairAll json.data = json.data)
    (hparse : jsonParse json = .ok v) :
    parseLLMJSONFull (pre ++ json ++ sfx) lbl = .ok v := by
  obtain ⟨tl, hj⟩ := startsWithL_single_iff.mp hhead
  obtain ⟨rl, hjr⟩ := startsWithL_single_iff.mp hlast
  have hraw : (pre ++ json ++ sfx).data = pre.data ++ json.data ++ sfx.data := by
    simp [String.data_append]
  have hjlen : 1 ≤ json.data.length := by rw [hj]; simp
  have hrawne : (pre ++ json ++ sfx) ≠ "" := by
    intro he
    have : (pre ++ json ++ sfx).data = [] := by rw [he]
    rw [hraw] at this
    simp at this
    rw [hj] at this
    simp at this
  have hfi : firstIdxOfChar '\x7b' (pre ++ json ++ sfx).data = some pre.data.length := by
    rw [hraw, hj]
    have : pre.data ++ ('\x7b' :: tl) ++ sfx.data = pre.data ++ '\x7b' :: (tl ++ sfx.data) := by
      simp
    rw [this]
    exact firstIdxOfChar_append (fun x hx => (hpre x hx).1) _
  have hla : lastIdxOfChar '\x7d' (pre ++ json ++ sfx).data =
      some (pre.data.length + json.data.length - 1) := by
    unfold lastIdxOfChar
    have hrev : (pre ++ json ++ sfx).data.reverse =
        sfx.data.reverse ++ '\x7d' :: (rl ++ pre.data.reverse) := by
      rw [hraw]
      simp only [List.reverse_append]
      rw [hjr]
      simp
    rw [hrev]
    rw [firstIdxOfChar_append (fun x hx => by
      have : x ∈ sfx.data := List.mem_reverse.mp hx
      exact (hsfx x this).2) _]
    simp only [Option.map_some']
    congr 1
    rw [hraw]
    simp
    omega
  have hslice : ((pre ++ json ++ sfx).data.drop pre.data.length).take
      (pre.data.length + json.data.length - 1 + 1 - pre.data.length) = json.data := by
    have harith : pre.data.length + json.data.length - 1 + 1 - pre.data.length =
        json.data.length := by omega
    rw [harith, hraw, List.append_assoc, List.drop_left, List.take_left]
  unfold parseLLMJSONFull
  rw [if_neg hrawne, hfi, hla]
  simp only [hslice, hfix, mk_data, hparse]

/- ===== Claims C4, C5, C6: the Resilient JSON Extractor ===== -/

/-- Claim C4 (amended): for every ASCII prefix and suffix containing
neither brace, and every valid JSON object text that starts with the
opening brace, ends with the closing brace and is left unchanged by the
normalization repairs, the extractor applied to
`prefix ++ json ++ suffix` succeeds with exactly the value of parsing
`json` alone.  (The unamended claim, for arbitrary valid `json`, is
refuted by `c4_counterexample`: the whitespace-collapsing repair can
rewrite the contents of string literals.) -/
theorem c4_wrapped_extraction (pre json sfx lbl : String) (v : JVal)
    (hpre : ∀ x ∈ pre.data, x ≠ '\x7b' ∧ x ≠ '\x7d')
    (hsfx : ∀ x ∈ sfx.data, x ≠ '\x7b' ∧ x ≠ '\x7d')
    (hhead : startsWithL ['\x7b'] json.data = true)
    (hlast : startsWithL ['\x7d'] json.data.reverse = true)
    (hfix : repairAll json.data = json.data)
    (hparse : jsonParse json = .ok v) :
    parseLLMJSONFull (pre ++ json ++ sfx) lbl = .ok v :=
  parseLLM_recovers pre json sfx lbl v hpre hsfx hhead hlast hfix hparse

/-- Witness for C4 at a concrete wrapped reply. -/
theorem c4_wrapped_extraction_witness :
    parseLLMJSONFull ("Here is the JSON: " ++ "\x7b\"a\": 1\x7d" ++ " Done.") "Metadata page 1" =
      .ok (.jobj [("a", .jnum "1")]) :=
  c4_wrapped_extraction "Here is the JSON: " "\x7b\"a\": 1\x7d" " Done." "Metadata page 1"
    (.jobj [("a", .jnum "1")]) (by decide) (by decide) (by decide) (by decide) rfl rfl

/-- Counterexample to C4 as stated: a valid JSON object whose string
literal contains two consecutive spaces is altered by the extractor
(the `\s+` repair collapses the run inside the literal), so
`extract(prefix + json + suffix)` differs from `parse(json)`. -/
theorem c4_counterexample :
    jsonParse "\x7b\"a\":\"x  y\"\x7d" = .ok (.jobj [("a", .jstr "x  y")]) ∧
    parseLLMJSONFull ("note " ++ "\x7b\"a\":\"x  y\"\x7d" ++ " end") "Metadata page 1" =
      .ok (.jobj [("a", .jstr "x y")]) ∧
    (JVal.jobj [("a", .jstr "x  y")]) ≠ (JVal.jobj [("a", .jstr "x y")]) :=
  ⟨rfl, rfl, by simp⟩

/-- Claim C5 (amended): the extractor is the identity composed with
`JSON.parse` on already-clean JSON object texts that start and end with
the braces and are fixed points of the normalization repairs.  (The
unamended claim, for every valid JSON text, is refuted by
`c5_counterexample`.) -/
theorem c5_clean_extraction (json lbl : String) (v : JVal)
    (hhead : startsWithL ['\x7b'] json.data = true)
    (hlast : startsWithL ['\x7d'] json.data.reverse = true)
    (hfix : repairAll json.data = json.data)
    (hparse : jsonParse json = .ok v) :
    parseLLMJSONFull json lbl = .ok v := by
  have h := parseLLM_recovers "" json "" lbl v (by simp) (by simp) hhead hlast hfix hparse
  rwa [string_append_empty] at h

/-- Witness for C5 at a concrete clean reply. -/
theorem c5_clean_extraction_witness :
    parseLLMJSONFull "\x7b\"status\":\"done\"\x7d" "Metadata page 1" =
      .ok (.jobj [("status", .jstr "done")]) :=
  c5_clean_extraction "\x7b\"status\":\"done\"\x7d" "Metadata page 1"
    (.jobj [("status", .jstr "done")]) (by decide) (by decide) rfl rfl

/-- Counterexample to C5 as stated: on the valid JSON text
`{"b":"u  v"}` the extractor returns a different value than
`JSON.parse`, because the whitespace run inside the string literal is
collapsed. -/
theorem c5_counterexample :
    jsonParse "\x7b\"b\":\"u  v\"\x7d" = .ok (.jobj [("b", .jstr "u  v")]) ∧
    parseLLMJSONFull "\x7b\"b\":\"u  v\"\x7d" "Metadata page 1" =
      .ok (.jobj [("b", .jstr "u v")]) ∧
    (JVal.jobj [("b", .jstr "u  v")]) ≠ (JVal.jobj [("b", .jstr "u v")]) :=
  ⟨rfl, rfl, by simp⟩

/-- The repaired brace-delimited slice of a raw reply. -/
def repairedSlice (raw : String) (stIdx enIdx : Nat) : List Char :=
  repairAll ((raw.data.drop stIdx).take (enIdx + 1 - stIdx))

/-- Claim C6 (amended): when the repaired substring still fails to
parse, the extractor fails carrying the caller label, the underlying
parse error, and the diagnostic excerpt logged for the failure, which is
an initial segment of the repaired text of at most 200 characters (the
whole repaired text whenever that text has at most 200 characters — the
unamended "never the full text" is refuted by `c6_counterexample`). -/
theorem c6_repair_failure_diagnostics (raw lbl er : String) (stIdx enIdx : Nat)
    (h1 : raw ≠ "")
    (h2 : firstIdxOfChar '\x7b' raw.data = some stIdx)
    (h3 : lastIdxOfChar '\x7d' raw.data = some enIdx)
    (h4 : jsonParse (String.mk (repairedSlice raw stIdx enIdx)) = .error er) :
    parseLLMJSONFull raw lbl =
      .error (.repairParseFailed lbl er (String.mk ((repairedSlice raw stIdx enIdx).take 200))) ∧
    renderPLJ (.repairParseFailed lbl er (String.mk ((repairedSlice raw stIdx enIdx).take 200))) =
      lbl ++ ": invalid JSON - " ++ er ∧
    startsWithL ((repairedSlice raw stIdx enIdx).take 200) (repairedSlice raw stIdx enIdx) = true ∧
    ((repairedSlice raw stIdx enIdx).take 200).length ≤ 200 := by
  refine ⟨?_, rfl, startsWithL_take _ _, by simp [List.length_take]⟩
  unfold parseLLMJSONFull
  rw [if_neg h1, h2, h3]
  simp only [repairedSlice] at h4 ⊢
  simp only [h4]

/-- Witness for C6 at a concrete unrepairable reply. -/
theorem c6_repair_failure_diagnostics_witness :
    parseLLMJSONFull "x\x7b]\x7dy" "Transactions page 3" =
      .error (.repairParseFailed "Transactions page 3"
        "Expected property name in JSON object"
        (String.mk ((repairedSlice "x\x7b]\x7dy" 1 3).take 200))) ∧
    renderPLJ (.repairParseFailed "Transactions page 3"
        "Expected property name in JSON object"
        (String.mk ((repairedSlice "x\x7b]\x7dy" 1 3).take 200))) =
      "Transactions page 3" ++ ": invalid JSON - " ++ "Expected property name in JSON object" ∧
    startsWithL ((repairedSlice "x\x7b]\x7dy" 1 3).take 200) (repairedSlice "x\x7b]\x7dy" 1 3) = true ∧
    ((repairedSlice "x\x7b]\x7dy" 1 3).take 200).length ≤ 200 :=
  c6_repair_failure_diagnostics "x\x7b]\x7dy" "Transactions page 3"
    "Expected property name in JSON object" 1 3 (by decide) (by decide) (by decide) rfl

/-- Counterexample to C6's "never the full text": when the repaired
text is short, the logged 200-character excerpt is the entire repaired
text. -/
theorem c6_counterexample :
    parseLLMJSONFull "\x7b]\x7d" "Transactions page 2" =
      .error (.repairParseFailed "Transactions page 2"
        "Expected property name in JSON object" "\x7b]\x7d") ∧
    String.mk ((repairedSlice "\x7b]\x7d" 0 2).take 200) =
      String.mk (repairedSlice "\x7b]\x7d" 0 2) ∧
    String.mk (repairedSlice "\x7b]\x7d" 0 2) = "\x7b]\x7d" :=
  ⟨rfl, rfl, rfl⟩

/- ===== Claim C8: transaction text windowing ===== -/

theorem firstIdxOfSub_eq_none_of_no_occ {n lt : List Char}
    (h : ∀ j, startsWithL n (lt.drop j) = false) : firstIdxOfSub n lt = none := by
  match he : firstIdxOfSub n lt with
  | none => rfl
  | some i =>
    have := (firstIdxOfSub_eq_some he).1
    rw [h i] at this
    exact absurd this (by simp)

theorem findFirstPhrase_none (ps : List String) (lt : List Char)
    (h : ∀ p ∈ ps, ∀ j, startsWithL (lcL p.data) (lt.drop j) = false) :
    findFirstPhrase ps lt = none := by
  induction ps with
  | nil => rfl
  | cons q qs ih =>
    simp only [findFirstPhrase]
    rw [firstIdxOfSub_eq_none_of_no_occ (h q (by simp))]
    exact ih (fun p hp j => h p (by simp [hp]) j)

theorem findFirstPhrase_split (ps1 : List String) (p : String) (ps2 : List String)
    (lt : List Char) (i : Nat)
    (hnone : ∀ q ∈ ps1, ∀ j, startsWithL (lcL q.data) (lt.drop j) = false)
    (hocc : startsWithL (lcL p.data) (lt.drop i) = true)
    (hmin : ∀ j < i, startsWithL (lcL p.data) (lt.drop j) = false) :
    findFirstPhrase (ps1 ++ p :: ps2) lt = some i := by
  induction ps1 with
  | nil =>
    simp only [List.nil_append, findFirstPhrase]
    rw [firstIdxOfSub_complete hocc hmin]
  | cons q qs ih =>
    simp only [List.cons_append, findFirstPhrase]
    rw [firstIdxOfSub_eq_none_of_no_occ (hnone q (by simp))]
    exact ih (fun r hr j => hnone r (by simp [hr]) j)

theorem findFirstPhrase_some (ps : List String) (lt : List Char) (i : Nat)
    (h : findFirstPhrase ps lt = some i) :
    ∃ p ∈ ps, startsWithL (lcL p.data) (lt.drop i) = true := by
  induction ps with
  | nil => simp [findFirstPhrase] at h
  | cons q qs ih =>
    simp only [findFirstPhrase] at h
    match he : firstIdxOfSub (lcL q.data) lt with
    | some i' =>
      rw [he] at h
      injection h with h'
      subst h'
      exact ⟨q, by simp, (firstIdxOfSub_eq_some he).1⟩
    | none =>
      rw [he] at h
      obtain ⟨p, hp, ho⟩ := ih h
      exact ⟨p, by simp [hp], ho⟩

theorem extractTransactionBlock_ne_empty (t : String) (ht : t ≠ "") :
    extractTransactionBlock t ≠ "" := by
  unfold extractTransactionBlock
  match hf : findFirstPhrase txnHeaderPhrases (lcL t.data) with
  | none => exact ht
  | some i =>
    obtain ⟨p, hp, ho⟩ := findFirstPhrase_some _ _ _ hf
    have hall : ∀ q ∈ txnHeaderPhrases, lcL q.data ≠ [] := by decide
    have hdrop : (lcL t.data).drop i ≠ [] := startsWithL_ne_nil (hall p hp) ho
    have hlen : i < t.data.length := by
      by_contra hge
      push_neg at hge
      exact hdrop (List.drop_eq_nil_of_le (by simpa [lcL] using hge))
    intro he
    have hdata : t.data.drop i = [] := congrArg String.data he
    have hlen2 := congrArg List.length hdata
    rw [List.length_drop, List.length_nil] at hlen2
    omega

/-- Claim C8: the transaction-window function returns the substring from
the first occurrence of the first listed header phrase that occurs in
the page text (case-insensitively) through the end of the text; when no
listed phrase occurs it returns the page text unmodified; and it never
turns a non-empty page text into an empty window. -/
theorem c8_transaction_window :
    (∀ t : String,
      (∀ p ∈ txnHeaderPhrases, ∀ j, startsWithL (lcL p.data) ((lcL t.data).drop j) = false) →
      extractTransactionBlock t = t) ∧
    (∀ (t : String) (ps1 : List String) (p : String) (ps2 : List String) (i : Nat),
      txnHeaderPhrases = ps1 ++ p :: ps2 →
      (∀ q ∈ ps1, ∀ j, startsWithL (lcL q.data) ((lcL t.data).drop j) = false) →
      startsWithL (lcL p.data) ((lcL t.data).drop i) = true →
      (∀ j < i, startsWithL (lcL p.data) ((lcL t.data).drop j) = false) →
      extractTransactionBlock t = String.mk (t.data.drop i)) ∧
    (∀ t : String, t ≠ "" → extractTransactionBlock t ≠ "") := by
  refine ⟨?_, ?_, extractTransactionBlock_ne_empty⟩
  · intro t h
    unfold extractTransactionBlock
    rw [findFirstPhrase_none _ _ h]
  · intro t ps1 p ps2 i hsplit hnone hocc hmin
    unfold extractTransactionBlock
    rw [hsplit, findFirstPhrase_split ps1 p ps2 _ i hnone hocc hmin]

/-- Witness for C8: `"Transaction History"` is the first listed phrase
occurring in the sample text, at index 4, and the window starts there. -/
theorem c8_transaction_window_witness :
    extractTransactionBlock "foo Transaction History bar" =
      String.mk (("foo Transaction History bar" : String).data.drop 4) :=
  c8_transaction_window.2.1 "foo Transaction History bar"
    ["Statement of Transactions", "Transaction Details"] "Transaction History"
    ["Account Activity", "Transactions", "Date Description", "Date Particulars", "Value Date"] 4
    rfl
    (by
      intro q hq j
      rcases List.mem_cons.mp hq with rfl | hq2
      · exact firstIdxOfSub_eq_none (by decide) j
      · rcases List.mem_cons.mp hq2 with rfl | h3
        · exact firstIdxOfSub_eq_none (by decide) j
        · simp at h3)
    (by decide)
    (by decide)

/- ===== Helper lemmas: the accounts map ===== -/

theorem lookupAcc_append_ne (l : AccountsMap) (k : String) (a : Account) (q : String)
    (h : q ≠ k) : lookupAcc (l ++ [(k, a)]) q = lookupAcc l q := by
  induction l with
  | nil =>
    simp only [List.nil_append, lookupAcc]
    rw [if_neg (fun he => h he.symm)]
  | cons p ps ih =>
    simp only [List.cons_append, lookupAcc]
    by_cases hpq : p.1 = q
    · simp [hpq]
    · simp only [if_neg hpq]
      exact ih

theorem lookupAcc_append_self (l : AccountsMap) (k : String) (a : Account)
    (h : lookupAcc l k = none) : lookupAcc (l ++ [(k, a)]) k = some a := by
  induction l with
  | nil => simp [lookupAcc]
  | cons p ps ih =>
    simp only [lookupAcc] at h
    simp only [List.cons_append, lookupAcc]
    by_cases hpk : p.1 = k
    · rw [if_pos hpk] at h
      exact absurd h (by simp)
    · rw [if_neg hpk] at h
      rw [if_neg hpk]
      exact ih h

theorem lookupAcc_appendTxns_ne (l : AccountsMap) (k : String) (rows : List JVal)
    (q : String) (h : q ≠ k) : lookupAcc (appendTxns l k rows) q = lookupAcc l q := by
  induction l with
  | nil => rfl
  | cons p ps ih =>
    simp only [appendTxns, List.map_cons, lookupAcc]
    by_cases hpk : p.1 = k
    · have hpq : ¬ p.1 = q := fun he => h (he.symm.trans hpk)
      simp only [if_pos hpk, if_neg hpq]
      simpa [appendTxns] using ih
    · simp only [if_neg hpk]
      by_cases hpq : p.1 = q
      · simp [hpq]
      · simp only [if_neg hpq]
        simpa [appendTxns] using ih

theorem lookupAcc_appendTxns_self (l : AccountsMap) (k : String) (rows : List JVal) :
    lookupAcc (appendTxns l k rows) k =
      (lookupAcc l k).map (fun a => { a with transactions := a.transactions ++ rows }) := by
  induction l with
  | nil => rfl
  | cons p ps ih =>
    simp only [appendTxns, List.map_cons, lookupAcc]
    by_cases hpk : p.1 = k
    · simp only [if_pos hpk]
      simp
    · simp only [if_neg hpk]
      simpa [appendTxns] using ih

theorem appendTxns_nil (l : AccountsMap) (k : String) : appendTxns l k [] = l := by
  induction l with
  | nil => rfl
  | cons p ps ih =>
    obtain ⟨pk, pa⟩ := p
    obtain ⟨a1, a2, a3, a4, a5, a6, a7, a8⟩ := pa
    simp only [appendTxns, List.map_cons] at ih ⊢
    rw [ih]
    by_cases hpk : pk = k
    · simp [hpk]
    · simp [hpk]

theorem stepAccounts_of_some (l : AccountsMap) (k : String) (acct meta : JVal)
    (a : Account) (h : lookupAcc l k = some a) :
    stepAccounts l k acct meta = l := by
  unfold stepAccounts
  rw [h]

theorem stepAccounts_of_none_not_proto (l : AccountsMap) (k : String) (acct meta : JVal)
    (h : lookupAcc l k = none) (hp : isProtoKey k = false) :
    stepAccounts l k acct meta = l ++ [(k, mkAccount acct meta)] := by
  unfold stepAccounts
  rw [h]
  simp only [hp, Bool.false_eq_true, if_false]

theorem stepAccounts_of_none_proto (l : AccountsMap) (k : String) (acct meta : JVal)
    (h : lookupAcc l k = none) (hp : isProtoKey k = true) :
    stepAccounts l k acct meta = l := by
  unfold stepAccounts
  rw [h]
  simp only [hp, if_true]

theorem lookupAcc_step_ne (l : AccountsMap) (k : String) (acct meta : JVal) (q : String)
    (h : q ≠ k) : lookupAcc (stepAccounts l k acct meta) q = lookupAcc l q := by
  unfold stepAccounts
  cases hl : lookupAcc l k with
  | some a => rfl
  | none =>
    by_cases hp : isProtoKey k = true
    · simp only [hp, if_true]
    · simp only [hp, if_false]
      exact lookupAcc_append_ne l k _ q h

/- ===== Helper lemmas: error shapes ===== -/

/-- Does an error message begin with one of the page-and-stage labels of
page `i`?  (The annotation property of the propagation policy.) -/
def pageAnnotated (i : Nat) (e : String) : Bool :=
  startsWithL (ocrFailPre i).data e.data || startsWithL (metaLabel i).data e.data ||
    startsWithL (txnLabel i).data e.data

theorem startsWithL_string_append (p r : String) :
    startsWithL p.data (p ++ r).data = true := by
  rw [String.data_append]
  exact startsWithL_append p.data r.data

/-- The stage label of a structured extractor failure. -/
def pljLabel : PLJFailure → String
  | .emptyResponse l => l
  | .noJSON l => l
  | .repairParseFailed l _ _ => l

theorem parseLLMJSONFull_error_label {raw lbl : String} {f : PLJFailure}
    (h : parseLLMJSONFull raw lbl = .error f) : pljLabel f = lbl := by
  unfold parseLLMJSONFull at h
  by_cases hr : raw = ""
  · rw [if_pos hr] at h
    injection h with h'
    rw [← h']
    rfl
  · rw [if_neg hr] at h
    cases h1 : firstIdxOfChar '\x7b' raw.data with
    | none =>
      rw [h1] at h
      cases h2 : lastIdxOfChar '\x7d' raw.data with
      | none => rw [h2] at h; injection h with h'; rw [← h']; rfl
      | some e2 => rw [h2] at h; injection h with h'; rw [← h']; rfl
    | some s1 =>
      rw [h1] at h
      cases h2 : lastIdxOfChar '\x7d' raw.data with
      | none => rw [h2] at h; injection h with h'; rw [← h']; rfl
      | some e2 =>
        rw [h2] at h
        simp only at h
        cases h3 : jsonParse (String.mk (repairAll ((raw.data.drop s1).take (e2 + 1 - s1)))) with
        | ok v => rw [h3] at h; cases h
        | error er =>
          rw [h3] at h
          injection h with h'
          rw [← h']
          rfl

theorem renderPLJ_label (f : PLJFailure) : ∃ r, renderPLJ f = pljLabel f ++ r := by
  cases f with
  | emptyResponse l => exact ⟨": empty response", rfl⟩
  | noJSON l => exact ⟨": invalid JSON", rfl⟩
  | repairParseFailed l er ex => exact ⟨": invalid JSON - " ++ er, by simp [renderPLJ, pljLabel, String.append_assoc]⟩

theorem parseLLMJSON_error_shape {raw lbl e : String}
    (h : parseLLMJSON raw lbl = .error e) : ∃ r, e = lbl ++ r := by
  unfold parseLLMJSON at h
  cases hf : parseLLMJSONFull raw lbl with
  | ok v => rw [hf] at h; cases h
  | error f =>
    rw [hf] at h
    simp only [Except.mapError] at h
    injection h with h'
    obtain ⟨r, hr⟩ := renderPLJ_label f
    rw [parseLLMJSONFull_error_label hf] at hr
    exact ⟨r, by rw [← h', hr]⟩

theorem callLLM_error_shape {r : Except LLMFail String} {lbl e : String}
    (h : callLLM r lbl = .error e) :
    e = connRefusedMsg ∨ ∃ m, e = lbl ++ (" LLM call failed: " ++ m) := by
  cases r with
  | ok t => cases h
  | error f =>
    cases f with
    | connRefused => left; injection h with h'; exact h'.symm
    | fail m =>
      right
      refine ⟨m, ?_⟩
      injection h with h'
      rw [← h', String.append_assoc]

/- ===== Helper lemmas: extracted account numbers are non-empty ===== -/

theorem orElse_eq_some {α : Type} {a b : Option α} {l : α}
    (h : (a <|> b) = some l) : a = some l ∨ b = some l := by
  cases a with
  | some x => left; simpa using h
  | none => right; simpa using h

theorem digitGroup_ne_nil {mn mx : Nat} {cs l : List Char} (hmn : 1 ≤ mn) (hmx : 1 ≤ mx)
    (h : digitGroup mn mx cs = some l) : l ≠ [] := by
  unfold digitGroup at h
  by_cases hc : mn ≤ (cs.takeWhile isDigitC).length
  · rw [if_pos hc] at h
    injection h with h'
    subst h'
    intro he
    have hlen := congrArg List.length he
    simp only [List.length_take, List.length_nil] at hlen
    omega
  · rw [if_neg hc] at h; cases h

theorem tailSep_ne_nil {req : Bool} {cs l : List Char} (h : tailSep req cs = some l) :
    l ≠ [] := by
  unfold tailSep at h
  cases h1 : stripWs cs with
  | nil => rw [h1] at h; cases h
  | cons c r =>
    rw [h1] at h
    dsimp only at h
    by_cases hc : (decide (c = ':') || decide (c = '-')) = true
    · rw [if_pos hc] at h
      exact digitGroup_ne_nil (by omega) (by omega) h
    · rw [if_neg hc] at h
      cases req with
      | true => cases h
      | false =>
        simp only [Bool.false_eq_true, if_false] at h
        exact digitGroup_ne_nil (by omega) (by omega) h

theorem altNoNumberHash_ne_nil {cs : List Char} {l : List Char}
    (h : altNoNumberHash cs = some l) : l ≠ [] := by
  unfold altNoNumberHash at h
  rcases orElse_eq_some h with h1 | h1
  · obtain ⟨x, _, hx⟩ := Option.bind_eq_some.mp h1
    exact tailSep_ne_nil hx
  rcases orElse_eq_some h1 with h2 | h2
  · obtain ⟨x, _, hx⟩ := Option.bind_eq_some.mp h2
    exact tailSep_ne_nil hx
  · obtain ⟨x, _, hx⟩ := Option.bind_eq_some.mp h2
    exact tailSep_ne_nil hx

theorem p1At_ne_nil {cs l : List Char} (h : p1At cs = some l) : l ≠ [] := by
  unfold p1At at h
  rcases orElse_eq_some h with h1 | h1 <;>
  · obtain ⟨x, _, hx⟩ := Option.bind_eq_some.mp h1
    exact altNoNumberHash_ne_nil hx

theorem p2At_ne_nil {cs l : List Char} (h : p2At cs = some l) : l ≠ [] := by
  unfold p2At at h
  obtain ⟨x, _, hx⟩ := Option.bind_eq_some.mp h
  obtain ⟨y, _, hy⟩ := Option.bind_eq_some.mp hx
  exact tailSep_ne_nil hy

theorem p3At_ne_nil {cs l : List Char} (h : p3At cs = some l) : l ≠ [] := by
  unfold p3At at h
  obtain ⟨x, _, hx⟩ := Option.bind_eq_some.mp h
  exact tailSep_ne_nil hx

theorem p4At_ne_nil {pw : Bool} {cs l : List Char} (h : p4At pw cs = some l) : l ≠ [] := by
  unfold p4At at h
  cases pw with
  | true => cases h
  | false =>
    simp only [Bool.false_eq_true, if_false] at h
    by_cases hc : (10 ≤ (cs.takeWhile isDigitC).length && (cs.takeWhile isDigitC).length ≤ 18) = true
    · rw [if_pos hc] at h
      simp only [Bool.and_eq_true, decide_eq_true_eq] at hc
      cases hd : cs.drop (cs.takeWhile isDigitC).length with
      | nil =>
        rw [hd] at h
        injection h with h'
        subst h'
        intro he
        have hlen := congrArg List.length he
        rw [List.length_nil] at hlen
        omega
      | cons c rest =>
        rw [hd] at h
        dsimp only at h
        by_cases hw : isWordC c = true
        · rw [if_pos hw] at h; cases h
        · rw [if_neg hw] at h
          injection h with h'
          subst h'
          intro he
          have hlen := congrArg List.length he
          rw [List.length_nil] at hlen
          omega
    · rw [if_neg hc] at h; cases h

theorem scanAt_ne_nil {m : List Char → Option (List Char)}
    (hm : ∀ cs l, m cs = some l → l ≠ []) :
    ∀ h l, scanAt m h = some l → l ≠ [] := by
  intro h
  induction h with
  | nil => intro l hl; exact hm [] l hl
  | cons c rest ih =>
    intro l hl
    simp only [scanAt] at hl
    rcases orElse_eq_some hl with h1 | h1
    · exact hm _ l h1
    · exact ih l h1

theorem scanP4_ne_nil : ∀ (pw : Bool) (h l : List Char), scanP4 pw h = some l → l ≠ [] := by
  intro pw h
  induction h generalizing pw with
  | nil => intro l hl; cases hl
  | cons c rest ih =>
    intro l hl
    simp only [scanP4] at hl
    rcases orElse_eq_some hl with h1 | h1
    · exact p4At_ne_nil h1
    · exact ih _ l h1

theorem extractAccountNumberFromText_ne_empty {t : String} {n : String}
    (h : extractAccountNumberFromText t = some n) : n ≠ "" := by
  unfold extractAccountNumberFromText at h
  obtain ⟨l, hl, hn⟩ := Option.map_eq_some'.mp h
  have hlne : l ≠ [] := by
    rcases orElse_eq_some hl with h1 | h1
    · rcases orElse_eq_some h1 with h2 | h2
      · exact scanAt_ne_nil (fun cs l0 => p1At_ne_nil) _ l h2
      rcases orElse_eq_some h2 with h3 | h3
      · exact scanAt_ne_nil (fun cs l0 => p2At_ne_nil) _ l h3
      · exact scanAt_ne_nil (fun cs l0 => p3At_ne_nil) _ l h3
    · exact scanP4_ne_nil false _ l h1
  intro he
  rw [← hn] at he
  exact hlne (congrArg String.data he)

/- ===== Helper lemmas: inversion of the page step ===== -/

theorem processPage_ok_inversion (i : Nat) (st : PState) (pg : PageInput) (t0 : String)
    (st' : PState) (hocr : pg.ocr = .ok t0) (ht : jsTrim t0 ≠ "")
    (h : processPage i st pg = .ok st') :
    ∃ mraw meta traw txns,
      callLLM pg.metaReply (metaLabel i) = .ok mraw ∧
      parseLLMJSON mraw (metaLabel i) = .ok meta ∧
      callLLM pg.txnReply (txnLabel i) = .ok traw ∧
      parseLLMJSON traw (txnLabel i) = .ok txns ∧
      (∀ xs : List JVal, getField txns "transactions" = some (.jarr xs) →
        lookupAcc (stepAccounts st.accounts (jKey (resolveId meta (jsTrim t0) st.active pg.now))
            (resolveId meta (jsTrim t0) st.active pg.now) meta)
          (jKey (resolveId meta (jsTrim t0) st.active pg.now)) ≠ none) ∧
      st' = ⟨appendTxns
               (stepAccounts st.accounts (jKey (resolveId meta (jsTrim t0) st.active pg.now))
                 (resolveId meta (jsTrim t0) st.active pg.now) meta)
               (jKey (resolveId meta (jsTrim t0) st.active pg.now)) (rowsOf txns),
             resolveId meta (jsTrim t0) st.active pg.now⟩ := by
  unfold processPage at h
  rw [hocr] at h
  dsimp only at h
  rw [if_neg ht] at h
  cases hm : callLLM pg.metaReply (metaLabel i) with
  | error e => rw [hm] at h; cases h
  | ok mraw =>
    rw [hm] at h
    dsimp only at h
    cases hmp : parseLLMJSON mraw (metaLabel i) with
    | error e => rw [hmp] at h; cases h
    | ok meta =>
      rw [hmp] at h
      dsimp only at h
      rw [if_neg (extractTransactionBlock_ne_empty (jsTrim t0) ht)] at h
      cases htc : callLLM pg.txnReply (txnLabel i) with
      | error e => rw [htc] at h; cases h
      | ok traw =>
        rw [htc] at h
        dsimp only at h
        cases htp : parseLLMJSON traw (txnLabel i) with
        | error e => rw [htp] at h; cases h
        | ok txns =>
          rw [htp] at h
          dsimp only at h
          cases hg : getField txns "transactions" with
          | none =>
            rw [hg] at h
            dsimp only at h
            injection h with h'
            refine ⟨mraw, meta, traw, txns, rfl, hmp, rfl, htp, ?_, ?_⟩
            · intro xs hxs
              rw [hg] at hxs
              simp at hxs
            · have hr : rowsOf txns = [] := by unfold rowsOf; rw [hg]
              rw [hr, appendTxns_nil]
              exact h'.symm
          | some v =>
            cases v with
            | jarr xs =>
              rw [hg] at h
              dsimp only at h
              cases hl : lookupAcc (stepAccounts st.accounts
                  (jKey (resolveId meta (jsTrim t0) st.active pg.now))
                  (resolveId meta (jsTrim t0) st.active pg.now) meta)
                  (jKey (resolveId meta (jsTrim t0) st.active pg.now)) with
              | none => rw [hl] at h; cases h
              | some a =>
                rw [hl] at h
                dsimp only at h
                injection h with h'
                refine ⟨mraw, meta, traw, txns, rfl, hmp, rfl, htp, ?_, ?_⟩
                · intro xs2 hxs2
                  rw [hl]
                  simp
                · have hr : rowsOf txns = xs := by unfold rowsOf; rw [hg]
                  rw [hr]
                  exact h'.symm
            | jnull =>
              rw [hg] at h
              dsimp only at h
              injection h with h'
              refine ⟨mraw, meta, traw, txns, rfl, hmp, rfl, htp, ?_, ?_⟩
              · intro xs hxs
                rw [hg] at hxs
                simp at hxs
              · have hr : rowsOf txns = [] := by unfold rowsOf; rw [hg]
                rw [hr, appendTxns_nil]
                exact h'.symm
            | jbool b =>
              rw [hg] at h
              dsimp only at h
              injection h with h'
              refine ⟨mraw, meta, traw, txns, rfl, hmp, rfl, htp, ?_, ?_⟩
              · intro xs hxs
                rw [hg] at hxs
                simp at hxs
              · have hr : rowsOf txns = [] := by unfold rowsOf; rw [hg]
                rw [hr, appendTxns_nil]
                exact h'.symm
            | jnum s =>
              rw [hg] at h
              dsimp only at h
              injection h with h'
              refine ⟨mraw, meta, traw, txns, rfl, hmp, rfl, htp, ?_, ?_⟩
              · intro xs hxs
                rw [hg] at hxs
                simp at hxs
              · have hr : rowsOf txns = [] := by unfold rowsOf; rw [hg]
                rw [hr, appendTxns_nil]
                exact h'.symm
            | jstr s =>
              rw [hg] at h
              dsimp only at h
              injection h with h'
              refine ⟨mraw, meta, traw, txns, rfl, hmp, rfl, htp, ?_, ?_⟩
              · intro xs hxs
                rw [hg] at hxs
                simp at hxs
              · have hr : rowsOf txns = [] := by unfold rowsOf; rw [hg]
                rw [hr, appendTxns_nil]
                exact h'.symm
            | jobj fs =>
              rw [hg] at h
              dsimp only at h
              injection h with h'
              refine ⟨mraw, meta, traw, txns, rfl, hmp, rfl, htp, ?_, ?_⟩
              · intro xs hxs
                rw [hg] at hxs
                simp at hxs
              · have hr : rowsOf txns = [] := by unfold rowsOf; rw [hg]
                rw [hr, appendTxns_nil]
                exact h'.symm

theorem processPage_eq_ok_noRows (i : Nat) (st : PState) (pg : PageInput) (t0 : String)
    (mraw : String) (meta : JVal) (traw : String) (txns : JVal)
    (hocr : pg.ocr = .ok t0) (ht : jsTrim t0 ≠ "")
    (hm : callLLM pg.metaReply (metaLabel i) = .ok mraw)
    (hmp : parseLLMJSON mraw (metaLabel i) = .ok meta)
    (htc : callLLM pg.txnReply (txnLabel i) = .ok traw)
    (htp : parseLLMJSON traw (txnLabel i) = .ok txns)
    (hna : ∀ xs : List JVal, getField txns "transactions" ≠ some (.jarr xs)) :
    processPage i st pg =
      .ok ⟨stepAccounts st.accounts (jKey (resolveId meta (jsTrim t0) st.active pg.now))
             (resolveId meta (jsTrim t0) st.active pg.now) meta,
           resolveId meta (jsTrim t0) st.active pg.now⟩ := by
  unfold processPage
  rw [hocr]
  dsimp only
  rw [if_neg ht, hm]
  dsimp only
  rw [hmp]
  dsimp only
  rw [if_neg (extractTransactionBlock_ne_empty (jsTrim t0) ht), htc]
  dsimp only
  rw [htp]
  dsimp only
  cases hg : getField txns "transactions" with
  | none => rfl
  | some v =>
    cases v with
    | jarr xs => exact absurd hg (hna xs)
    | jnull => rfl
    | jbool b => rfl
    | jnum s => rfl
    | jstr s => rfl
    | jobj fs => rfl

theorem resolveId_of_truthy_field {meta : JVal} {txt : String} {active : JVal} {now : Nat}
    (h : jTruthy (getFieldD meta "accountNumber") = true) :
    resolveId meta txt active now = getFieldD meta "accountNumber" := by
  simp only [resolveId, h, if_true]

theorem resolveId_of_extract {meta : JVal} {txt : String} {active : JVal} {now : Nat}
    {n : String} (h : jTruthy (getFieldD meta "accountNumber") = false)
    (he : extractAccountNumberFromText txt = some n) :
    resolveId meta txt active now = .jstr n := by
  have hn : jTruthy (JVal.jstr n) = true := by
    simp only [jTruthy, bne_iff_ne, ne_eq, decide_eq_true_eq]
    exact extractAccountNumberFromText_ne_empty he
  simp only [resolveId, h, Bool.false_eq_true, if_false, he, hn, if_true]

theorem resolveId_of_active {meta : JVal} {txt : String} {active : JVal} {now : Nat}
    (h : jTruthy (getFieldD meta "accountNumber") = false)
    (he : extractAccountNumberFromText txt = none)
    (ha : jTruthy active = true) :
    resolveId meta txt active now = active := by
  simp only [resolveId, h, Bool.false_eq_true, if_false, he, ha, if_true]

theorem resolveId_of_synth {meta : JVal} {txt : String} {active : JVal} {now : Nat}
    (h : jTruthy (getFieldD meta "accountNumber") = false)
    (he : extractAccountNumberFromText txt = none)
    (ha : jTruthy active = false) :
    resolveId meta txt active now = .jstr (synthId (getFieldD meta "bankName") now) := by
  simp only [resolveId, h, Bool.false_eq_true, if_false, he, ha]

/- ===== Claim C1: identifier resolution priority ===== -/

/-- Claim C1: for every page with non-empty OCR text whose metadata
extraction succeeded, the resolved identifier (which becomes the carried
`activeAccountNumber` for the next page) is chosen by strict priority:
(a) the metadata `accountNumber` field when non-empty; (b) else the
regex match over the raw page text; (c) else the previous page's
identifier when one is carried; (d) else the synthesized
bank-name-and-time identifier. -/
theorem c1_identifier_priority (i : Nat) (st : PState) (pg : PageInput) (t0 : String)
    (mraw : String) (meta : JVal) (st' : PState)
    (hocr : pg.ocr = .ok t0) (ht : jsTrim t0 ≠ "")
    (hm : callLLM pg.metaReply (metaLabel i) = .ok mraw)
    (hmp : parseLLMJSON mraw (metaLabel i) = .ok meta)
    (h : processPage i st pg = .ok st') :
    st'.active = resolveId meta (jsTrim t0) st.active pg.now ∧
    (∀ s : String, getField meta "accountNumber" = some (.jstr s) → s ≠ "" →
      resolveId meta (jsTrim t0) st.active pg.now = .jstr s) ∧
    (jTruthy (getFieldD meta "accountNumber") = false →
      ∀ n : String, extractAccountNumberFromText (jsTrim t0) = some n →
        resolveId meta (jsTrim t0) st.active pg.now = .jstr n) ∧
    (jTruthy (getFieldD meta "accountNumber") = false →
      extractAccountNumberFromText (jsTrim t0) = none →
      jTruthy st.active = true →
      resolveId meta (jsTrim t0) st.active pg.now = st.active) ∧
    (jTruthy (getFieldD meta "accountNumber") = false →
      extractAccountNumberFromText (jsTrim t0) = none →
      jTruthy st.active = false →
      resolveId meta (jsTrim t0) st.active pg.now =
        .jstr (synthId (getFieldD meta "bankName") pg.now)) := by
  refine ⟨?_, ?_, ?_, ?_, ?_⟩
  · obtain ⟨mraw', meta', traw, txns, e1, e2, e3, e4, _, e5⟩ :=
      processPage_ok_inversion i st pg t0 st' hocr ht h
    rw [hm] at e1
    injection e1 with e1'
    subst e1'
    rw [hmp] at e2
    injection e2 with e2'
    subst e2'
    rw [e5]
  · intro s hfield hs
    have hA : getFieldD meta "accountNumber" = .jstr s := by
      simp [getFieldD, hfield]
    have htr : jTruthy (getFieldD meta "accountNumber") = true := by
      rw [hA]
      simp only [jTruthy, bne_iff_ne, ne_eq, decide_eq_true_eq]
      exact hs
    rw [resolveId_of_truthy_field htr, hA]
  · intro hfalse n he
    exact resolveId_of_extract hfalse he
  · intro hfalse he ha
    exact resolveId_of_active hfalse he ha
  · intro hfalse he ha
    exact resolveId_of_synth hfalse he ha

/- ===== Concrete pages used by witnesses and counterexamples ===== -/

/-- A metadata reply carrying only a bank name (no account number). -/
def mRawBankOnly : String := "\x7b\"bankName\":\"B\"\x7d"

/-- A metadata reply whose account-number field happens to equal the
identifier that page 1 synthesized. -/
def mRawCollide : String := "\x7b\"accountNumber\":\"UNKNOWN-B-5\"\x7d"

/-- A metadata reply with an account number and bank name. -/
def mRawAcc : String := "\x7b\"accountNumber\":\"1234567890\",\"bankName\":\"X\"\x7d"

/-- A transaction reply with an empty row array. -/
def tRawEmpty : String := "\x7b\"transactions\":[]\x7d"

/-- A transaction reply with one row. -/
def tRawRows : String := "\x7b\"transactions\":[\x7b\"date\":\"1/1\"\x7d]\x7d"

/-- A transaction reply whose `transactions` field is not an array. -/
def tRawNotArr : String := "\x7b\"transactions\":\"none\"\x7d"

/-- A metadata reply naming an `Object.prototype` property as the
account number. -/
def mRawProto : String := "\x7b\"accountNumber\":\"constructor\"\x7d"

/-- A page resolving to the prototype-named identifier `constructor`
with a non-array `transactions` reply: it completes, but the creation
guard sees the inherited property and stores nothing. -/
def pgProtoNoArr : PageInput := ⟨.ok "hello there", .ok mRawProto, .ok tRawNotArr, 11⟩

/-- The same identifier with an array `transactions` reply: the push on
the inherited property's `undefined` transactions throws. -/
def pgProtoArr : PageInput := ⟨.ok "hello there", .ok mRawProto, .ok tRawEmpty, 11⟩

/-- Page whose text yields no account number anywhere (synthetic
fallback) with clock reading 5. -/
def pgSynth : PageInput := ⟨.ok "hello there", .ok mRawBankOnly, .ok tRawEmpty, 5⟩

/-- Page whose metadata happens to name the synthesized identifier of
`pgSynth`. -/
def pgCollide : PageInput := ⟨.ok "hello again", .ok mRawCollide, .ok tRawEmpty, 99⟩

/-- Page with a metadata account number and one extracted row. -/
def pgAcc : PageInput := ⟨.ok "hello there", .ok mRawAcc, .ok tRawRows, 7⟩

/-- The parsed metadata object of `pgAcc`. -/
def metaAcc : JVal := .jobj [("accountNumber", .jstr "1234567890"), ("bankName", .jstr "X")]

/-- The account created by `pgSynth` from the empty state. -/
def acctSynth : Account :=
  ⟨.jstr "UNKNOWN-B-5", .jstr "B", .jstr "", .jstr "", .jstr "", .jstr "", .jstr "", []⟩

/-- The state after processing `pgSynth` from the empty state. -/
def stSynth : PState := ⟨[("UNKNOWN-B-5", acctSynth)], .jstr "UNKNOWN-B-5"⟩

/-- The account created by `pgAcc` from the empty state. -/
def acctAcc : Account :=
  ⟨.jstr "1234567890", .jstr "X", .jstr "", .jstr "", .jstr "", .jstr "", .jstr "",
   [.jobj [("date", .jstr "1/1")]]⟩

/-- The state after processing `pgAcc` from the empty state. -/
def stAcc : PState := ⟨[("1234567890", acctAcc)], .jstr "1234567890"⟩

/-- Witness for C1: on `pgAcc` the carried identifier is the resolved
one, chosen from the metadata field by priority rule (a). -/
theorem c1_identifier_priority_witness :
    stAcc.active = resolveId metaAcc (jsTrim "hello there") .jnull pgAcc.now ∧
    resolveId metaAcc (jsTrim "hello there") .jnull pgAcc.now = .jstr "1234567890" :=
  ⟨(c1_identifier_priority 0 ⟨[], .jnull⟩ pgAcc "hello there" mRawAcc metaAcc stAcc
      rfl (by decide) rfl rfl rfl).1,
   (c1_identifier_priority 0 ⟨[], .jnull⟩ pgAcc "hello there" mRawAcc metaAcc stAcc
      rfl (by decide) rfl rfl rfl).2.1 "1234567890" rfl (by decide)⟩

/- ===== Claim C2: every non-empty page feeds exactly one account ===== -/

/-- Claim C3: when a successfully processed non-empty page resolves to
an identifier whose account already exists, every stored metadata field
of that account (bank name, holder name, account type, currency,
statement dates, and the stored account number) is unchanged; the only
mutation is appending the page's rows to its transaction list, and no
other entry of the accounts map is touched. -/
theorem c3_first_page_wins (i : Nat) (st : PState) (pg : PageInput) (t0 : String)
    (st' : PState) (a : Account)
    (hocr : pg.ocr = .ok t0) (ht : jsTrim t0 ≠ "")
    (h : processPage i st pg = .ok st')
    (ha : lookupAcc st.accounts (jKey st'.active) = some a) :
    (∃ rows : List JVal, lookupAcc st'.accounts (jKey st'.active) =
      some ⟨a.accountNumber, a.bankName, a.accountHolderName, a.accountType,
            a.currency, a.statementStartDate, a.statementEndDate,
            a.transactions ++ rows⟩) ∧
    ∀ q : String, q ≠ jKey st'.active → lookupAcc st'.accounts q = lookupAcc st.accounts q := by
  obtain ⟨mraw, meta, traw, txns, e1, e2, e3, e4, earr, e5⟩ :=
    processPage_ok_inversion i st pg t0 st' hocr ht h
  constructor
  · refine ⟨rowsOf txns, ?_⟩
    rw [e5] at ha ⊢
    dsimp only at ha ⊢
    rw [lookupAcc_appendTxns_self, stepAccounts_of_some _ _ _ _ _ ha, ha, Option.map_some']
  · intro q hq
    rw [e5] at hq ⊢
    dsimp only at hq ⊢
    rw [lookupAcc_appendTxns_ne _ _ _ _ hq, lookupAcc_step_ne _ _ _ _ _ hq]

/-- Witness for C3: reprocessing an identifier-colliding page after
`pgSynth` leaves the stored metadata of the existing account unchanged
and appends its (empty) row list. -/
theorem c3_first_page_wins_witness :
    (∃ rows : List JVal, lookupAcc stSynth.accounts (jKey stSynth.active) =
      some ⟨acctSynth.accountNumber, acctSynth.bankName, acctSynth.accountHolderName,
            acctSynth.accountType, acctSynth.currency, acctSynth.statementStartDate,
            acctSynth.statementEndDate, acctSynth.transactions ++ rows⟩) ∧
    ∀ q : String, q ≠ jKey stSynth.active →
      lookupAcc stSynth.accounts q = lookupAcc stSynth.accounts q :=
  c3_first_page_wins 1 stSynth pgCollide "hello again" stSynth acctSynth
    rfl (by decide) rfl rfl

/- ===== Claim C7: fatal error propagation ===== -/

/-- Claim C7 (amended): the run fold stops at the first failing page and
returns exactly that page's error with no partial accounts map (first
two conjuncts), and every error raised during a page's processing is
annotated with the page index and the extraction stage that produced it,
except three propagated-verbatim cases the source contains: the
language-model connection-refused guidance message, an OCR transport
error, and the TypeError thrown when the transaction push dereferences
the `undefined` transactions of an inherited `Object.prototype` entry,
none of which carries a page annotation (third conjunct; the unamended
claim is refuted by `c7_counterexample`). -/
theorem c7_fatal_propagation :
    (∀ (i : Nat) (st : PState) (pg : PageInput) (rest : List PageInput) (e : String),
      processPage i st pg = .error e → runFrom i st (pg :: rest) = .error e) ∧
    (∀ (i : Nat) (st : PState) (pg : PageInput) (rest : List PageInput) (st' : PState),
      processPage i st pg = .ok st' → runFrom i st (pg :: rest) = runFrom (i + 1) st' rest) ∧
    (∀ (i : Nat) (st : PState) (pg : PageInput) (e : String),
      processPage i st pg = .error e →
      pageAnnotated i e = true ∨ e = connRefusedMsg ∨ pg.ocr = .transport e ∨
        e = typeErrMsg) := by
  refine ⟨?_, ?_, ?_⟩
  · intro i st pg rest e h
    simp only [runFrom, h]
  · intro i st pg rest st' h
    simp only [runFrom, h]
  · intro i st pg e h
    unfold processPage at h
    cases ho : pg.ocr with
    | transport m =>
      rw [ho] at h
      dsimp only at h
      injection h with h'
      right; right; left
      rw [h']
    | failed m =>
      rw [ho] at h
      dsimp only at h
      injection h with h'
      left
      rw [← h']
      unfold pageAnnotated
      rw [startsWithL_string_append]
      simp
    | ok t0 =>
      rw [ho] at h
      dsimp only at h
      by_cases ht : jsTrim t0 = ""
      · rw [if_pos ht] at h; cases h
      · rw [if_neg ht] at h
        cases hm : callLLM pg.metaReply (metaLabel i) with
        | error e1 =>
          rw [hm] at h
          dsimp only at h
          injection h with h'
          subst h'
          rcases callLLM_error_shape hm with hc | ⟨m, hm2⟩
          · right; left; exact hc
          · left
            rw [hm2]
            unfold pageAnnotated
            rw [startsWithL_string_append]
            simp
        | ok mraw =>
          rw [hm] at h
          dsimp only at h
          cases hmp : parseLLMJSON mraw (metaLabel i) with
          | error e1 =>
            rw [hmp] at h
            dsimp only at h
            injection h with h'
            subst h'
            obtain ⟨r, hr⟩ := parseLLMJSON_error_shape hmp
            left
            rw [hr]
            unfold pageAnnotated
            rw [startsWithL_string_append]
            simp
          | ok meta =>
            rw [hmp] at h
            dsimp only at h
            rw [if_neg (extractTransactionBlock_ne_empty (jsTrim t0) ht)] at h
            cases htc : callLLM pg.txnReply (txnLabel i) with
            | error e1 =>
              rw [htc] at h
              dsimp only at h
              injection h with h'
              subst h'
              rcases callLLM_error_shape htc with hc | ⟨m, hm2⟩
              · right; left; exact hc
              · left
                rw [hm2]
                unfold pageAnnotated
                rw [startsWithL_string_append]
                simp
            | ok traw =>
              rw [htc] at h
              dsimp only at h
              cases htp : parseLLMJSON traw (txnLabel i) with
              | error e1 =>
                rw [htp] at h
                dsimp only at h
                injection h with h'
                subst h'
                obtain ⟨r, hr⟩ := parseLLMJSON_error_shape htp
                left
                rw [hr]
                unfold pageAnnotated
                rw [startsWithL_string_append]
                simp
              | ok txns =>
                rw [htp] at h
                dsimp only at h
                cases hg : getField txns "transactions" with
                | none =>
                  rw [hg] at h
                  dsimp only at h
                  cases h
                | some v =>
                  rw [hg] at h
                  cases v with
                  | jarr xs =>
                    dsimp only at h
                    cases hl : lookupAcc
                        (stepAccounts st.accounts
                          (jKey (resolveId meta (jsTrim t0) st.active pg.now))
                          (resolveId meta (jsTrim t0) st.active pg.now) meta)
                        (jKey (resolveId meta (jsTrim t0) st.active pg.now)) with
                    | some a =>
                      rw [hl] at h
                      dsimp only at h
                      cases h
                    | none =>
                      rw [hl] at h
                      dsimp only at h
                      injection h with h'
                      right; right; right
                      first
                      | exact h'
                      | exact h'.symm
                  | jnull => dsimp only at h; cases h
                  | jbool b => dsimp only at h; cases h
                  | jnum s => dsimp only at h; cases h
                  | jstr s => dsimp only at h; cases h
                  | jobj fs => dsimp only at h; cases h

/-- Witness for C7: a failing metadata call aborts a two-page run with
that page's stage-annotated error, and a failing page stops the fold. -/
theorem c7_fatal_propagation_witness :
    runFrom 0 ⟨[], .jnull⟩
      [⟨.ok "hello", .error (.fail "boom"), .ok tRawEmpty, 0⟩, pgAcc] =
      .error "Metadata page 1 LLM call failed: boom" ∧
    (pageAnnotated 0 "Metadata page 1 LLM call failed: boom" = true ∨
      "Metadata page 1 LLM call failed: boom" = connRefusedMsg ∨
      (⟨.ok "hello", .error (.fail "boom"), .ok tRawEmpty, 0⟩ : PageInput).ocr =
        .transport "Metadata page 1 LLM call failed: boom" ∨
      "Metadata page 1 LLM call failed: boom" = typeErrMsg) :=
  ⟨c7_fatal_propagation.1 0 ⟨[], .jnull⟩
      ⟨.ok "hello", .error (.fail "boom"), .ok tRawEmpty, 0⟩ [pgAcc]
      "Metadata page 1 LLM call failed: boom" rfl,
   c7_fatal_propagation.2.2 0 ⟨[], .jnull⟩
      ⟨.ok "hello", .error (.fail "boom"), .ok tRawEmpty, 0⟩
      "Metadata page 1 LLM call failed: boom" rfl⟩

/-- Counterexample to C7 as stated: the connection-refused branch of
`callLLM` surfaces a fixed guidance message that names neither the page
index nor the extraction stage, and the push onto the inherited
`Object.prototype.constructor` entry aborts the run with an equally
unannotated TypeError. -/
theorem c7_counterexample :
    runPages [⟨.ok "hello", .error .connRefused, .ok tRawEmpty, 0⟩] =
      .error connRefusedMsg ∧
    pageAnnotated 0 connRefusedMsg = false ∧
    runPages [pgProtoArr] = .error typeErrMsg ∧
    pageAnnotated 0 typeErrMsg = false :=
  ⟨rfl, rfl, rfl, rfl⟩

/- ===== Claim C9: the synthetic identifier ===== -/

/-- Claim C9 (amended): the synthesized identifier is non-empty, is
built from the detected bank name and the wall-clock reading, and two
identifiers synthesized from the same bank name coincide exactly when
their clock readings render to the same decimal string — so uniqueness
holds across distinct clock readings but is not guaranteed against
other identifiers of the run (refuted as stated by
`c9_counterexample`). -/
theorem c9_synthetic_identifier (bank : JVal) (t1 t2 : Nat) :
    synthId bank t1 ≠ "" ∧
    synthId bank t1 =
      "UNKNOWN-" ++ (if jTruthy bank then jKey bank else "BANK") ++ "-" ++ Nat.repr t1 ∧
    (synthId bank t1 = synthId bank t2 ↔ Nat.repr t1 = Nat.repr t2) := by
  refine ⟨?_, rfl, ?_, ?_⟩
  · intro he
    have h2 := congrArg String.data he
    simp only [synthId, String.data_append] at h2
    simp at h2
  · intro h
    have h2 := congrArg String.data h
    simp only [synthId, String.data_append, List.append_assoc] at h2
    have h3 := List.append_cancel_left h2
    have h5 := List.append_cancel_left h3
    have h6 := List.append_cancel_left h5
    exact String.ext h6
  · intro h
    simp only [synthId, h]

/-- Witness for C9 at a concrete bank name and two clock readings. -/
theorem c9_synthetic_identifier_witness :
    synthId (.jstr "B") 5 ≠ "" ∧
    (synthId (.jstr "B") 5 = synthId (.jstr "B") 6 ↔ Nat.repr 5 = Nat.repr 6) :=
  ⟨(c9_synthetic_identifier (.jstr "B") 5 6).1,
   (c9_synthetic_identifier (.jstr "B") 5 6).2.2⟩

/-- Counterexample to C9 as stated: page 1 reaches fallback (d) and
synthesizes `UNKNOWN-B-5`; page 2's extracted metadata names that very
string, so the synthesized identifier is not distinct from every other
identifier of the run — both pages resolve to one shared account. -/
theorem c9_counterexample :
    processPage 0 ⟨[], .jnull⟩ pgSynth = .ok stSynth ∧
    resolveId (JVal.jobj [("bankName", .jstr "B")]) (jsTrim "hello there") .jnull 5 =
      .jstr (synthId (.jstr "B") 5) ∧
    synthId (.jstr "B") 5 = "UNKNOWN-B-5" ∧
    processPage 1 stSynth pgCollide = .ok stSynth ∧
    stSynth.active = .jstr "UNKNOWN-B-5" :=
  ⟨rfl, rfl, rfl, rfl, rfl⟩

/- ===== Claim C10: non-array transactions field ===== -/

/-- Claim C10 (amended): when the transaction reply parses but its
`transactions` field is absent or not an array, the page raises no error
and appends no rows, and no entry other than the resolved key's changes;
the account for the page's identifier is created or retained whenever
the key already has an own entry or is not inherited from
`Object.prototype` (with transaction list the prior one, or empty for a
fresh account), but a prototype-named key with no own entry creates
nothing — the guard sees the inherited truthy property and the page
completes with no account for the identifier (the unamended
always-created-or-retained claim is refuted by `c10_counterexample`). -/
theorem c10_non_array_transactions (i : Nat) (st : PState) (pg : PageInput) (t0 : String)
    (mraw : String) (meta : JVal) (traw : String) (txns : JVal)
    (hocr : pg.ocr = .ok t0) (ht : jsTrim t0 ≠ "")
    (hm : callLLM pg.metaReply (metaLabel i) = .ok mraw)
    (hmp : parseLLMJSON mraw (metaLabel i) = .ok meta)
    (htc : callLLM pg.txnReply (txnLabel i) = .ok traw)
    (htp : parseLLMJSON traw (txnLabel i) = .ok txns)
    (hrows : ∀ xs : List JVal, getField txns "transactions" ≠ some (.jarr xs)) :
    ∃ st' : PState, processPage i st pg = .ok st' ∧
      ((∃ acc : Account, lookupAcc st'.accounts (jKey st'.active) = some acc ∧
          acc.transactions = (match lookupAcc st.accounts (jKey st'.active) with
                              | some a => a.transactions
                              | none => [])) ∨
        (isProtoKey (jKey st'.active) = true ∧
          lookupAcc st.accounts (jKey st'.active) = none ∧
          lookupAcc st'.accounts (jKey st'.active) = none)) ∧
      ∀ q : String, q ≠ jKey st'.active →
        lookupAcc st'.accounts q = lookupAcc st.accounts q := by
  have hpp := processPage_eq_ok_noRows i st pg t0 mraw meta traw txns
    hocr ht hm hmp htc htp hrows
  refine ⟨_, hpp, ?_, ?_⟩
  · cases ha : lookupAcc st.accounts (jKey (resolveId meta (jsTrim t0) st.active pg.now)) with
    | some a =>
      left
      refine ⟨a, ?_, ?_⟩
      · dsimp only
        rw [stepAccounts_of_some _ _ _ _ _ ha]
        exact ha
      · rfl
    | none =>
      by_cases hp : isProtoKey (jKey (resolveId meta (jsTrim t0) st.active pg.now)) = true
      · right
        refine ⟨hp, rfl, ?_⟩
        dsimp only
        rw [stepAccounts_of_none_proto _ _ _ _ ha hp]
        exact ha
      · left
        refine ⟨mkAccount (resolveId meta (jsTrim t0) st.active pg.now) meta, ?_, ?_⟩
        · dsimp only
          rw [stepAccounts_of_none_not_proto _ _ _ _ ha (Bool.not_eq_true _ ▸ hp),
            lookupAcc_append_self _ _ _ ha]
        · rfl
  · intro q hq
    dsimp only at hq ⊢
    rw [lookupAcc_step_ne _ _ _ _ _ hq]

/-- Witness for C10 at a concrete page whose `transactions` field is the
string `"none"`. -/
theorem c10_non_array_transactions_witness :
    ∃ st' : PState,
      processPage 0 ⟨[], .jnull⟩ (⟨.ok "hello there", .ok mRawAcc, .ok tRawNotArr, 7⟩ : PageInput) =
        .ok st' ∧
      ((∃ acc : Account, lookupAcc st'.accounts (jKey st'.active) = some acc ∧
          acc.transactions = (match lookupAcc (([] : AccountsMap)) (jKey st'.active) with
                              | some a => a.transactions
                              | none => [])) ∨
        (isProtoKey (jKey st'.active) = true ∧
          lookupAcc (([] : AccountsMap)) (jKey st'.active) = none ∧
          lookupAcc st'.accounts (jKey st'.active) = none)) ∧
      ∀ q : String, q ≠ jKey st'.active →
        lookupAcc st'.accounts q = lookupAcc (([] : AccountsMap)) q :=
  c10_non_array_transactions 0 ⟨[], .jnull⟩
    ⟨.ok "hello there", .ok mRawAcc, .ok tRawNotArr, 7⟩ "hello there"
    mRawAcc metaAcc tRawNotArr (.jobj [("transactions", .jstr "none")])
    rfl (by decide) rfl rfl rfl rfl
    (by
      intro xs hx
      rw [show getField (JVal.jobj [("transactions", .jstr "none")]) "transactions" =
        some (.jstr "none") from rfl] at hx
      simp at hx)

/-- Counterexample to C10 as stated: a page with a non-array
`transactions` reply whose resolved identifier is the prototype-named
`constructor` completes without error, yet the accounts map of the
resulting state is empty — the identifier's account was neither created
nor retained. -/
theorem c10_counterexample :
    processPage 0 ⟨[], .jnull⟩ pgProtoNoArr = .ok ⟨[], .jstr "constructor"⟩ ∧
    jKey (JVal.jstr "constructor") = "constructor" ∧
    lookupAcc ([] : AccountsMap) "constructor" = none :=
  ⟨rfl, rfl, rfl⟩
